import Mathlib

/-!
Shallow embedding of `src/telegram_cleaner.py` (Bartixxx32/Telegram-account-cleaner).

Conventions of the embedding:
* Python `float` arithmetic is modelled over `ℚ` (the operations involved —
  halving, doubling, multiplying by 3/2, `min`/`max` — are order-exact and the
  claims are statements about the real-number values).
* `time.time()` is modelled by passing the current time `now : ℚ` explicitly to
  each operation; all `time.time()` calls inside one Python method call are
  modelled by the same `now`.
* Python `dict` is modelled as a function `String → Option _`; deleting a key
  maps it to `none`.
* Python truthiness is modelled explicitly where the code relies on it:
  `if wait_seconds:` (None and 0 falsy), `if key:` (None and "" falsy),
  `if cached_status:` (None and False falsy), `b.username or str(b.id)`
  (None and "" falsy).
* Fallible paths (Python exceptions) are modelled with `Option`/`Except`.
-/

/-! ## RateLimiter (telegram_cleaner.py lines 52–95) -/

structure RateLimiter where
  delay : ℚ
  max_delay : ℚ
  max_requests : ℕ
  request_times : List ℚ
  last_error_time : Option ℚ
  deriving Repr, DecidableEq

/-- `RateLimiter.__init__` with the default arguments
`initial_delay=1.0, max_delay=64.0, max_requests_per_minute=20`. -/
def RateLimiter.default : RateLimiter :=
  { delay := 1, max_delay := 64, max_requests := 20
    request_times := [], last_error_time := none }

/-- `RateLimiter.record_success` (lines 84–87):
`if self.delay > 1.0: self.delay = max(1.0, self.delay / 2)`. -/
def RateLimiter.record_success (rl : RateLimiter) : RateLimiter :=
  if rl.delay > 1 then { rl with delay := max 1 (rl.delay / 2) } else rl

/-- `RateLimiter.record_error` (lines 89–95). `wait_seconds` is
`Optional[float]`; the Python guard `if wait_seconds:` is falsy for both `None`
and `0`, so those two cases take the `self.delay * 2` branch. -/
def RateLimiter.record_error (rl : RateLimiter) (now : ℚ)
    (wait_seconds : Option ℚ) : RateLimiter :=
  let d : ℚ :=
    match wait_seconds with
    | some w =>
        if w ≠ 0 then min rl.max_delay (w * (3 / 2))
        else min rl.max_delay (rl.delay * 2)
    | none => min rl.max_delay (rl.delay * 2)
  { rl with delay := d, last_error_time := some now }

/-- One observable event in the life of a `RateLimiter`: a successful call or a
rate-limit error (with the time it happened and the optional server hint). -/
inductive RLOp where
  | success : RLOp
  | error (now : ℚ) (wait_seconds : Option ℚ) : RLOp
  deriving Repr, DecidableEq

def RateLimiter.apply (rl : RateLimiter) : RLOp → RateLimiter
  | .success => rl.record_success
  | .error now w => rl.record_error now w

/-- Run a whole sequence of `record_success`/`record_error` calls. -/
def RateLimiter.applyAll (rl : RateLimiter) (ops : List RLOp) : RateLimiter :=
  ops.foldl RateLimiter.apply rl

/-! ## EntityCache (telegram_cleaner.py lines 98–126) -/

structure EntityCache (α : Type) where
  cache : String → Option (α × ℚ)
  max_age : ℚ

/-- `EntityCache.__init__` with the default `max_age = 3600`. -/
def EntityCache.empty (α : Type) : EntityCache α :=
  { cache := fun _ => none, max_age := 3600 }

/-- `EntityCache.get` (lines 105–114): returns the cached entity if present and
fresh; if present but expired (`time.time() - timestamp >= max_age`) the entry
is deleted and `None` is returned. Returns the looked-up value together with
the cache state after the call. -/
def EntityCache.get (c : EntityCache α) (now : ℚ) (key : String) :
    Option α × EntityCache α :=
  match c.cache key with
  | some (entity, timestamp) =>
      if now - timestamp < c.max_age then (some entity, c)
      else (none, { c with cache := fun k => if k = key then none else c.cache k })
  | none => (none, c)

/-- `EntityCache.set` (lines 116–118): `self.cache[key] = (entity, time.time())`. -/
def EntityCache.set (c : EntityCache α) (now : ℚ) (key : String) (entity : α) :
    EntityCache α :=
  { c with cache := fun k => if k = key then some (entity, now) else c.cache k }

/-- `EntityCache.invalidate` (lines 120–126). The argument defaults to `None`;
the Python guard `if key:` is falsy for both `None` and the empty string, so
both clear the whole cache; a truthy key is deleted (deleting an absent key is
a no-op, which the function model absorbs). -/
def EntityCache.invalidate (c : EntityCache α) (key : Option String) :
    EntityCache α :=
  match key with
  | some k =>
      if k ≠ "" then { c with cache := fun i => if i = k then none else c.cache i }
      else { c with cache := fun _ => none }
  | none => { c with cache := fun _ => none }

/-! ## ProgressTracker (telegram_cleaner.py lines 129–186) -/

structure ProgressTracker where
  total : ℕ
  current : ℕ
  start_time : ℚ
  last_update : ℚ
  error_count : ℕ
  success_count : ℕ
  deriving Repr, DecidableEq

/-- What one `_print_progress` call displays (the fields that involve
arithmetic): the percentage, the ETA (`none` renders as "calculating..."), and
the filled length of the progress bar. -/
structure RenderOutput where
  percentage : ℚ
  eta : Option ℚ
  filled_length : ℕ
  deriving Repr, DecidableEq

/-- `ProgressTracker._print_progress` (lines 155–180), with every Python
division made explicit. Returns `none` exactly when the Python code would
raise `ZeroDivisionError`: the only unguarded division is
`items_per_second = self.current / elapsed` (reached when `current > 0`),
whose denominator `elapsed = time.time() - start_time` may be zero. The
divisions `current / total` and `bar_length * current // total` are guarded by
`total == 0` / `total > 0` checks, and `remaining_items / items_per_second` is
guarded by `items_per_second > 0`. -/
def print_progress (p : ProgressTracker) (now : ℚ) : Option RenderOutput :=
  let percentage : ℚ :=
    if p.total = 0 then 100 else ((p.current : ℚ) / (p.total : ℚ)) * 100
  let elapsed : ℚ := now - p.start_time
  let filled_length : ℕ := if 0 < p.total then 30 * p.current / p.total else 30
  if 0 < p.current then
    if elapsed = 0 then none
    else
      let items_per_second : ℚ := (p.current : ℚ) / elapsed
      let remaining_items : ℚ := (p.total : ℚ) - (p.current : ℚ)
      let eta : ℚ := if 0 < items_per_second then remaining_items / items_per_second else 0
      some { percentage := percentage, eta := some eta, filled_length := filled_length }
  else
    some { percentage := percentage, eta := none, filled_length := filled_length }

/-- `ProgressTracker.__init__` (lines 132–140): counters zeroed,
`last_update = 0` (not the start time), and an initial `_print_progress` call
(with `current = 0` that call cannot divide by zero). -/
def ProgressTracker.init (total : ℕ) (now : ℚ) : ProgressTracker :=
  { total := total, current := 0, start_time := now, last_update := 0
    error_count := 0, success_count := 0 }

/-- One external call on a `ProgressTracker`, with the time at which it runs. -/
inductive PTOp where
  | update (now : ℚ) (success : Bool) : PTOp
  | complete (now : ℚ) : PTOp
  deriving Repr, DecidableEq

def PTOp.time : PTOp → ℚ
  | .update now _ => now
  | .complete now => now

def PTOp.isUpdate : PTOp → Bool
  | .update _ _ => true
  | .complete _ => false

/-- `ProgressTracker.update` (lines 142–153) and `ProgressTracker.complete`
(lines 182–186). The result is `none` when `_print_progress` raised
`ZeroDivisionError`; otherwise it is the new state together with the render
this call produced (if any). -/
def ProgressTracker.step (p : ProgressTracker) :
    PTOp → Option (ProgressTracker × Option RenderOutput)
  | .update now success =>
      let p1 : ProgressTracker :=
        { p with
          current := p.current + 1
          success_count := if success then p.success_count + 1 else p.success_count
          error_count := if success then p.error_count else p.error_count + 1 }
      if 1 < now - p1.last_update ∨ p1.current = p1.total then
        match print_progress p1 now with
        | some r => some ({ p1 with last_update := now }, some r)
        | none => none
      else
        some (p1, none)
  | .complete now =>
      let p1 : ProgressTracker := { p with current := p.total }
      match print_progress p1 now with
      | some r => some (p1, some r)
      | none => none

/-- Run a sequence of `update`/`complete` calls, collecting every render
produced along the way; `none` if any call raised `ZeroDivisionError`. -/
def ProgressTracker.run (p : ProgressTracker) :
    List PTOp → Option (ProgressTracker × List RenderOutput)
  | [] => some (p, [])
  | op :: ops =>
      match p.step op with
      | none => none
      | some (p1, r) =>
          match p1.run ops with
          | none => none
          | some (p2, rs) => some (p2, (r.toList) ++ rs)

/-- The state reached by a sequence of calls, ignoring the renders. -/
def ProgressTracker.runState (p : ProgressTracker) (ops : List PTOp) :
    Option ProgressTracker :=
  (p.run ops).map Prod.fst

/-! ## rate_limited_request (telegram_cleaner.py lines 306–321)

Each invocation of the wrapped call is modelled by the outcome it would have:
it returns a value, raises `FloodWaitError` with a wait hint of `h` seconds,
or raises some other exception. `rate_limited_request` consumes these
outcomes in order. `wait_if_needed` (the proactive throttle, lines 62–82)
only sleeps and touches `request_times`; it is not modelled here because the
claims about this function concern the retry sleeps and the backoff state.
The retry sleep is `await asyncio.sleep(e.seconds + 1)` (line 316); the list
of those sleep durations is returned. `none` models the (unreachable in
practice) case where the supplied outcome list is exhausted while the call is
still flooding. -/

inductive Attempt (α : Type) where
  | success (v : α) : Attempt α
  | floodWait (h : ℚ) : Attempt α
  | otherError : Attempt α
  deriving Repr, DecidableEq

def rate_limited_request {α : Type} (now : ℚ) :
    List (Attempt α) → RateLimiter → Option (List ℚ × Except Unit α × RateLimiter)
  | [], _ => none
  | .success v :: _, rl => some ([], Except.ok v, rl.record_success)
  | .floodWait h :: rest, rl =>
      match rate_limited_request now rest (rl.record_error now (some h)) with
      | some (sleeps, res, rl2) => some ((h + 1) :: sleeps, res, rl2)
      | none => none
  | .otherError :: _, rl => some ([], Except.error (), rl.record_error now none)

/-! ## Scan workflows (telegram_cleaner.py lines 339–447) -/

/-- The fields of a Telethon `User` that the scans read. -/
structure TUser where
  id : ℤ
  access_hash : ℤ
  bot : Bool
  deleted : Bool
  username : Option String
  deriving Repr, DecidableEq

/-- `b.username or str(b.id)` (lines 349, 362): Python `or` falls through on a
falsy username, i.e. on `None` and on the empty string. -/
def botKey (u : TUser) : String :=
  match u.username with
  | some s => if s ≠ "" then s else toString u.id
  | none => toString u.id

/-- Result-processing loop of `scan_dead_bots` (lines 402–411): each
non-exception result `(username, responded)` is added to `seen_bots`, and to
`dead_bots` as well when `responded` is false; results that are exceptions
(`asyncio.gather(..., return_exceptions=True)`) are logged and skipped. -/
def scan_dead_bots_fold (seen dead : Finset String)
    (results : List (Except Unit (String × Bool))) : Finset String × Finset String :=
  results.foldl
    (fun sd r =>
      match r with
      | .error _ => sd
      | .ok (username, responded) =>
          (insert username sd.1, if responded then sd.2 else insert username sd.2))
    (seen, dead)

/-- Records written by `scan_deleted_accounts` (lines 434–444): the deleted
subset of the non-bot contacts, as `(id, access_hash)` pairs. -/
def scan_deleted_accounts_records (contacts : List TUser) : List (ℤ × ℤ) :=
  (contacts.filter fun u => u.deleted).map fun u => (u.id, u.access_hash)

/-- Persisted-file transition of `scan_deleted_accounts` (lines 441–444): the
file is opened with mode `"w"`, so the previous contents are discarded and
replaced by the current scan's records. -/
def scan_deleted_accounts_persist (prior : List (ℤ × ℤ)) (contacts : List TUser) :
    List (ℤ × ℤ) :=
  scan_deleted_accounts_records contacts

/-! ## ping_bot (telegram_cleaner.py lines 359–396, cached-status logic) -/

/-- Boolean list-prefix test (model of Python substring search). -/
def isPrefixB : List Char → List Char → Bool
  | [], _ => true
  | _ :: _, [] => false
  | a :: as, b :: bs => a == b && isPrefixB as bs

/-- Boolean list-infix test. -/
def isInfixB : List Char → List Char → Bool
  | needle, [] => isPrefixB needle []
  | needle, c :: cs => isPrefixB needle (c :: cs) || isInfixB needle cs

/-- Python `"/start" in m`, for a message text `m`. -/
def containsStart (m : String) : Bool :=
  isInfixB "/start".data m.data

/-- Python truthiness of `cached_status` (line 369): `entity_cache.get`
returned `None`, or the cached value itself, a `bool`. -/
def truthyOptBool : Option Bool → Bool
  | some b => b
  | none => false

/-- The cached-status and probe logic of `scan_dead_bots.ping_bot`
(lines 359–392, the non-exception path). The cache is consulted under key
`"bot_status_" ++ username`; a truthy cached value short-circuits and is
returned. Otherwise the bot is probed — `messages` are the texts fetched after
sending `/start` — and `is_alive = bool(messages) and not all("/start" in
m.message for m in messages)` (line 381) is cached and returned. The returned
`Bool` flag records whether a fresh probe message was sent. -/
def ping_bot (cache : EntityCache Bool) (now : ℚ) (username : String)
    (messages : List String) : (String × Bool) × Bool × EntityCache Bool :=
  let cache_key := "bot_status_" ++ username
  let looked := cache.get now cache_key
  if truthyOptBool looked.1 then
    ((username, true), false, looked.2)
  else
    let is_alive := !messages.isEmpty && !(messages.all containsStart)
    ((username, is_alive), true, looked.2.set now cache_key is_alive)

/-! ## Concrete example states used to instantiate the theorems -/

/-- A cache holding one fresh entry under key `"x"`. -/
def exCacheX : EntityCache ℕ :=
  { cache := fun k => if k = "x" then some (7, 0) else none, max_age := 3600 }

/-- A cache holding one fresh entry under key `"a"`. -/
def exCacheA : EntityCache ℕ :=
  { cache := fun k => if k = "a" then some (5, 0) else none, max_age := 3600 }

/-- A cache holding fresh entries under keys `"a"` and `"b"`. -/
def exCacheAB : EntityCache ℕ :=
  { cache := fun k =>
      if k = "a" then some (5, 0) else if k = "b" then some (3, 0) else none,
    max_age := 3600 }

/-- A cache recording the bot `"u"` as dead (`false`) at time 0. -/
def exCacheBotDead : EntityCache Bool :=
  { cache := fun k => if k = "bot_status_u" then some (false, 0) else none,
    max_age := 3600 }

/-! ## Helper lemmas for the RateLimiter claims -/

theorem RateLimiter.record_success_max_delay (rl : RateLimiter) :
    rl.record_success.max_delay = rl.max_delay := by
  unfold RateLimiter.record_success
  split <;> rfl

theorem RateLimiter.record_error_max_delay (rl : RateLimiter) (now : ℚ)
    (w : Option ℚ) : (rl.record_error now w).max_delay = rl.max_delay := by
  cases w <;> rfl

theorem RateLimiter.record_success_delay_bounds (rl : RateLimiter)
    (h1 : 1 ≤ rl.delay) (h2 : rl.delay ≤ 64) :
    1 ≤ rl.record_success.delay ∧ rl.record_success.delay ≤ 64 := by
  unfold RateLimiter.record_success
  split
  · exact ⟨le_max_left _ _, max_le (by norm_num) (by linarith)⟩
  · exact ⟨h1, h2⟩

theorem RateLimiter.record_error_delay_bounds (rl : RateLimiter) (now : ℚ)
    (w : Option ℚ) (hm : rl.max_delay = 64) (h1 : 1 ≤ rl.delay)
    (hw : ∀ x, w = some x → x = 0 ∨ 2 / 3 ≤ x) :
    1 ≤ (rl.record_error now w).delay ∧ (rl.record_error now w).delay ≤ 64 := by
  unfold RateLimiter.record_error
  rcases w with _ | x
  · simp only [hm]
    exact ⟨le_min (by norm_num) (by linarith), min_le_left _ _⟩
  · rcases hw x rfl with h0 | hx
    · subst h0
      simp only [hm, ne_eq, not_true_eq_false, if_false]
      exact ⟨le_min (by norm_num) (by linarith), min_le_left _ _⟩
    · have hx0 : x ≠ 0 := by
        intro h; rw [h] at hx; norm_num at hx
      simp only [hm, ne_eq, hx0, not_false_eq_true, if_true]
      refine ⟨le_min (by norm_num) (by nlinarith), min_le_left _ _⟩

theorem RateLimiter.apply_delay_bounds (rl : RateLimiter) (op : RLOp)
    (hm : rl.max_delay = 64) (h1 : 1 ≤ rl.delay) (h2 : rl.delay ≤ 64)
    (hw : ∀ t w x, op = RLOp.error t w → w = some x → x = 0 ∨ 2 / 3 ≤ x) :
    (1 ≤ (rl.apply op).delay ∧ (rl.apply op).delay ≤ 64) ∧
    (rl.apply op).max_delay = 64 := by
  cases op with
  | success =>
      exact ⟨rl.record_success_delay_bounds h1 h2,
        (rl.record_success_max_delay).trans hm⟩
  | error t w =>
      exact ⟨rl.record_error_delay_bounds t w hm h1 (fun x hx => hw t w x rfl hx),
        (rl.record_error_max_delay t w).trans hm⟩

theorem RateLimiter.applyAll_delay_bounds (ops : List RLOp) :
    ∀ rl : RateLimiter, rl.max_delay = 64 → 1 ≤ rl.delay → rl.delay ≤ 64 →
      (∀ t w x, RLOp.error t w ∈ ops → w = some x → x = 0 ∨ 2 / 3 ≤ x) →
      1 ≤ (rl.applyAll ops).delay ∧ (rl.applyAll ops).delay ≤ 64 := by
  induction ops with
  | nil => exact fun rl _ h1 h2 _ => ⟨h1, h2⟩
  | cons op ops ih =>
      intro rl hm h1 h2 hw
      have hstep := rl.apply_delay_bounds op hm h1 h2
        (fun t w x hop hsome => hw t w x (hop ▸ List.mem_cons_self op ops) hsome)
      exact ih (rl.apply op) hstep.2 hstep.1.1 hstep.1.2
        (fun t w x hmem hsome => hw t w x (List.mem_cons_of_mem op hmem) hsome)

/-- C1 (counterexample): the claim quantifies over any positive wait-hint, but
a single `record_error(0.1)` on a freshly constructed `RateLimiter` sets
`delay = min(64.0, 0.1 * 1.5) = 0.15`, strictly below the claimed floor 1.0. -/
theorem C1_counterexample :
    ¬ (1 ≤ (RateLimiter.default.applyAll [RLOp.error 0 (some (1 / 10))]).delay ∧
        (RateLimiter.default.applyAll [RLOp.error 0 (some (1 / 10))]).delay ≤ 64) := by
  intro hc
  have h : (RateLimiter.default.applyAll [RLOp.error 0 (some (1 / 10))]).delay
      = 3 / 20 := by
    norm_num [RateLimiter.applyAll, RateLimiter.apply, RateLimiter.record_error,
      RateLimiter.default]
  rw [h] at hc
  norm_num at hc

/-- C1 (amended): for every sequence of `record_success`/`record_error` calls
on a default-constructed `RateLimiter`, the `delay` field stays within
[1.0, 64.0] after every call, provided every wait-hint passed to
`record_error` is either 0 (falsy, treated as absent) or at least 2/3 of a
second; with arbitrary positive hints only the upper bound holds, since
`record_error(h)` sets `delay = min(64.0, h * 1.5)`, which is below 1.0
whenever 0 < h < 2/3. -/
theorem C1_delay_bounds (ops : List RLOp)
    (hw : ∀ t w x, RLOp.error t w ∈ ops → w = some x → x = 0 ∨ 2 / 3 ≤ x) :
    1 ≤ (RateLimiter.default.applyAll ops).delay ∧
      (RateLimiter.default.applyAll ops).delay ≤ 64 :=
  RateLimiter.applyAll_delay_bounds ops RateLimiter.default rfl
    (by norm_num [RateLimiter.default]) (by norm_num [RateLimiter.default]) hw

/-- Witness for C1: a concrete run (one flood error with a 1-second hint, then
a success) stays within the bounds. -/
theorem C1_witness :
    1 ≤ (RateLimiter.default.applyAll [RLOp.error 0 (some 1), RLOp.success]).delay ∧
      (RateLimiter.default.applyAll [RLOp.error 0 (some 1), RLOp.success]).delay ≤ 64 := by
  apply C1_delay_bounds
  intro t w x hmem hsome
  simp only [List.mem_cons, List.not_mem_nil, or_false] at hmem
  rcases hmem with h | h
  · rw [RLOp.error.injEq] at h
    rw [h.2] at hsome
    rw [Option.some.injEq] at hsome
    right
    rw [← hsome]
    norm_num
  · exact absurd h (by simp)

/-- Helper: a delay at or below the floor is left unchanged by
`record_success`. -/
theorem RateLimiter.record_success_of_le_one (rl : RateLimiter)
    (h : ¬ 1 < rl.delay) : rl.record_success = rl := by
  unfold RateLimiter.record_success
  rw [if_neg h]

/-- C2 (counterexample): the claimed decay factor is 0.9, but the code halves
the delay: starting from `delay = 2`, one `record_success()` yields
`max(1.0, 2/2) = 1.0`, while the claimed value is `max(1.0, 2 × 0.9¹) = 1.8`. -/
theorem C2_counterexample :
    ¬ ((RateLimiter.record_success^[1]
          { RateLimiter.default with delay := 2 }).delay
        = max 1 ((2 : ℚ) * (9 / 10) ^ 1)) := by
  intro hc
  have h : (RateLimiter.record_success^[1]
      { RateLimiter.default with delay := 2 }).delay = 1 := by
    norm_num [Function.iterate_one, RateLimiter.record_success, RateLimiter.default]
  have hmax : max (1 : ℚ) ((2 : ℚ) * (9 / 10) ^ 1) = 9 / 5 := by
    rw [max_eq_right] <;> norm_num
  rw [h, hmax] at hc
  norm_num at hc

/-- C2 (amended): `record_success` halves the delay (floor 1.0), it does not
multiply by 0.9. For every `RateLimiter` whose delay `d0` is at least the
floor 1.0, after `k` consecutive `record_success()` calls the delay equals
`max(1.0, d0 / 2^k)`; a delay already below 1.0 is left unchanged forever
(the guard `if self.delay > 1.0` fails). -/
theorem C2_success_decay (rl : RateLimiter) (k : ℕ) :
    (1 ≤ rl.delay →
      (RateLimiter.record_success^[k] rl).delay = max 1 (rl.delay / 2 ^ k)) ∧
    (rl.delay < 1 → (RateLimiter.record_success^[k] rl).delay = rl.delay) := by
  induction k generalizing rl with
  | zero =>
      refine ⟨fun h => ?_, fun _ => rfl⟩
      rw [Function.iterate_zero_apply, pow_zero, div_one, max_eq_right h]
  | succ k ih =>
      constructor
      · intro h
        rw [Function.iterate_succ_apply]
        by_cases hd : 1 < rl.delay
        · have hfd : rl.record_success.delay = max 1 (rl.delay / 2) := by
            unfold RateLimiter.record_success
            rw [if_pos hd]
          have h1 : 1 ≤ rl.record_success.delay := hfd ▸ le_max_left _ _
          rw [(ih rl.record_success).1 h1, hfd]
          rcases le_or_lt (rl.delay / 2) 1 with hle | hlt
          · have e1 : (1 : ℚ) / 2 ^ k ≤ 1 := by
              rw [div_le_one (by positivity)]
              exact one_le_pow₀ (by norm_num)
            have e2 : rl.delay / 2 ^ (k + 1) ≤ 1 := by
              rw [div_le_one (by positivity)]
              have hd2 : rl.delay ≤ 2 := (div_le_one (by norm_num)).mp hle
              calc rl.delay ≤ 2 := hd2
                _ ≤ 2 ^ (k + 1) := le_self_pow₀ (by norm_num) (Nat.succ_ne_zero k)
            rw [max_eq_left hle, max_eq_left e1, max_eq_left e2]
          · rw [max_eq_right hlt.le]
            congr 1
            ring
        · have hd1 : rl.delay = 1 := le_antisymm (not_lt.mp hd) h
          rw [rl.record_success_of_le_one hd, (ih rl).1 h, hd1]
          rw [max_eq_left, max_eq_left]
          · rw [div_le_one (by positivity)]
            exact one_le_pow₀ (by norm_num)
          · rw [div_le_one (by positivity)]
            exact one_le_pow₀ (by norm_num)
      · intro h
        rw [Function.iterate_succ_apply,
          rl.record_success_of_le_one (by linarith)]
        exact (ih rl).2 h

/-- Witness for C2: from `delay = 3`, two successes give
`max(1.0, 3/4) = 1.0`. -/
theorem C2_witness :
    (1 : ℚ) ≤ ({ RateLimiter.default with delay := 3 } : RateLimiter).delay ∧
    (RateLimiter.record_success^[2]
        { RateLimiter.default with delay := 3 }).delay
      = max 1 ((3 : ℚ) / 2 ^ 2) := by
  constructor
  · norm_num [RateLimiter.default]
  · exact (C2_success_decay { RateLimiter.default with delay := 3 } 2).1
      (by norm_num [RateLimiter.default])

/-- C3 (counterexample): when no hint is given the claim says the current
delay is multiplied by 1.5, but the code doubles it: from `delay = 2`,
`record_error()` yields `min(64.0, 2 × 2) = 4.0`, not
`min(64.0, 2 × 1.5) = 3.0`. -/
theorem C3_counterexample :
    ¬ ((({ RateLimiter.default with delay := 2 } : RateLimiter).record_error
          5 none).delay = min (64 : ℚ) ((2 : ℚ) * (3 / 2))) := by
  intro hc
  have h1 : (({ RateLimiter.default with delay := 2 } : RateLimiter).record_error
      5 none).delay = 4 := by
    show min (64 : ℚ) ((2 : ℚ) * 2) = 4
    rw [min_eq_right] <;> norm_num
  have h2 : min (64 : ℚ) ((2 : ℚ) * (3 / 2)) = 3 := by
    rw [min_eq_right] <;> norm_num
  rw [h1, h2] at hc
  norm_num at hc

/-- C3 (amended): `record_error(hint)` with a truthy (non-zero) hint sets
`delay = min(max_delay, hint × 1.5)`; with no hint (or a zero hint, which the
guard `if wait_seconds:` treats as absent) it sets
`delay = min(max_delay, delay × 2)` — doubling, not × 1.5. In every case the
last-error timestamp is set to the current time. -/
theorem C3_record_error_spec (rl : RateLimiter) (now : ℚ) :
    (∀ w : ℚ, w ≠ 0 →
      (rl.record_error now (some w)).delay = min rl.max_delay (w * (3 / 2))) ∧
    (rl.record_error now none).delay = min rl.max_delay (rl.delay * 2) ∧
    (∀ w : Option ℚ, (rl.record_error now w).last_error_time = some now) := by
  refine ⟨fun w hw => ?_, rfl, fun w => ?_⟩
  · simp only [RateLimiter.record_error, ne_eq, hw, not_false_eq_true, if_true]
  · cases w <;> rfl

/-- Witness for C3: `record_error(4)` on a fresh limiter sets
`delay = min(64, 6) = 6` and stamps the error time. -/
theorem C3_witness :
    (RateLimiter.default.record_error 0 (some 4)).delay
        = min RateLimiter.default.max_delay ((4 : ℚ) * (3 / 2)) ∧
    (RateLimiter.default.record_error 0 (some 4)).last_error_time = some 0 :=
  ⟨(C3_record_error_spec RateLimiter.default 0).1 4 (by norm_num),
    (C3_record_error_spec RateLimiter.default 0).2.2 (some 4)⟩


/-- C5 (confirmed): `EntityCache.get(key)` returns absent exactly when the key
was never set or `now - insertion-timestamp ≥ max_age` (3600 by default);
otherwise it returns the stored value; the entry is absent after the call
exactly when the lookup returned absent (so the expired entry is removed, a
fresh one is kept), and no key other than the one read is touched by the
call. -/
theorem C5_cache_get (α : Type) (c : EntityCache α) (now : ℚ) (key : String) :
    ((c.get now key).1 = none ↔
      c.cache key = none ∨
        ∃ e t, c.cache key = some (e, t) ∧ c.max_age ≤ now - t) ∧
    (∀ e t, c.cache key = some (e, t) → now - t < c.max_age →
      (c.get now key).1 = some e) ∧
    ((c.get now key).2.cache key = none ↔ (c.get now key).1 = none) ∧
    (∀ k, k ≠ key → (c.get now key).2.cache k = c.cache k) := by
  rcases hm : c.cache key with _ | ⟨e, t⟩
  · simp only [EntityCache.get, hm]
    refine ⟨by simp, ?_, by simp, fun k hk => trivial⟩
    intro e1 t1 he
    exact absurd he (by simp)
  · by_cases hfresh : now - t < c.max_age
    · simp only [EntityCache.get, hm, if_pos hfresh]
      refine ⟨?_, ?_, by simp, fun k hk => trivial⟩
      · simp only [reduceCtorEq, false_or]
        constructor
        · intro h; exact absurd h (by simp)
        · rintro ⟨e1, t1, he, ht⟩
          rw [Option.some.injEq, Prod.mk.injEq] at he
          rw [← he.2] at ht
          exact absurd hfresh (not_lt.mpr ht)
      · intro e1 t1 he _
        rw [Option.some.injEq, Prod.mk.injEq] at he
        rw [he.1]
    · simp only [EntityCache.get, hm, if_neg hfresh]
      refine ⟨?_, ?_, by simp, fun k hk => by simp [hk]⟩
      · simp only [reduceCtorEq, false_or, true_iff]
        exact ⟨e, t, rfl, not_lt.mp hfresh⟩
      · intro e1 t1 he ht
        rw [Option.some.injEq, Prod.mk.injEq] at he
        rw [← he.2] at ht
        exact absurd ht (not_lt.mpr (not_lt.mp hfresh))

/-- Witness for C5: a cache holding `"x" ↦ (7, inserted at t = 0)` read at
`now = 10 < 3600` returns the stored value. -/
theorem C5_witness : (exCacheX.get 10 "x").1 = some 7 :=
  (C5_cache_get ℕ exCacheX 10 "x").2.1 7 0 (by simp [exCacheX])
    (by norm_num [exCacheX])

/-- C6 (counterexample): the claim says `invalidate(k)` leaves every entry
with a key other than `k` unchanged, but the Python guard `if key:` is falsy
for the empty string, so `invalidate("")` clears the whole cache: the
unrelated entry at `"a"` is gone. -/
theorem C6_counterexample :
    ¬ ((exCacheA.invalidate (some "")).cache "a" = exCacheA.cache "a") := by
  intro hc
  have h1 : (exCacheA.invalidate (some "")).cache "a" = none := by
    simp [EntityCache.invalidate, exCacheA]
  have h2 : exCacheA.cache "a" = some (5, 0) := by simp [exCacheA]
  rw [h1, h2] at hc
  exact Option.noConfusion hc

/-- C6 (amended): `invalidate()` with no argument empties the cache, and for
every non-empty key `k`, `invalidate(k)` removes the entry for `k` and leaves
every other entry unchanged; the empty-string key is the one exception — the
guard `if key:` treats `""` like the no-argument call, so `invalidate("")`
also empties the whole cache. -/
theorem C6_invalidate_spec (α : Type) (c : EntityCache α) :
    (∀ k, (c.invalidate none).cache k = none) ∧
    (∀ k, k ≠ "" → (c.invalidate (some k)).cache k = none ∧
      ∀ j, j ≠ k → (c.invalidate (some k)).cache j = c.cache j) ∧
    (∀ k, (c.invalidate (some "")).cache k = none) := by
  refine ⟨fun k => rfl, fun k hk => ?_, fun k => ?_⟩
  · constructor
    · simp only [EntityCache.invalidate, ne_eq, hk, not_false_eq_true, if_true,
        if_pos rfl]
    · intro j hj
      simp only [EntityCache.invalidate, ne_eq, hk, not_false_eq_true, if_true,
        if_neg hj]
  · simp [EntityCache.invalidate]

/-- Witness for C6: on a cache holding `"a"` and `"b"`, `invalidate("a")`
removes `"a"` and leaves `"b"` as it was. -/
theorem C6_witness :
    (exCacheAB.invalidate (some "a")).cache "a" = none ∧
    (exCacheAB.invalidate (some "a")).cache "b" = exCacheAB.cache "b" := by
  have h := (C6_invalidate_spec ℕ exCacheAB).2.1 "a" (by decide)
  exact ⟨h.1, h.2 "b" (by decide)⟩

theorem print_progress_total_zero (p : ProgressTracker) (now : ℚ)
    (h : p.total = 0) (h2 : ¬ (now - p.start_time = 0) ∨ p.current = 0) :
    ∃ r, print_progress p now = some r ∧ r.percentage = 100 := by
  unfold print_progress
  rw [h]
  by_cases hc : 0 < p.current
  · have he : ¬ (now - p.start_time = 0) := by
      rcases h2 with h2 | h2
      · exact h2
      · omega
    rw [if_pos hc, if_neg he]
    exact ⟨_, rfl, rfl⟩
  · rw [if_neg hc]
    exact ⟨_, rfl, rfl⟩

theorem print_progress_total_zero_ne_none {p : ProgressTracker} {now : ℚ}
    (h : p.total = 0) (h2 : ¬ (now - p.start_time = 0) ∨ p.current = 0) :
    print_progress p now ≠ none := by
  obtain ⟨r, hr, _⟩ := print_progress_total_zero p now h h2
  rw [hr]
  exact fun hc => Option.noConfusion hc

theorem print_progress_percentage {p : ProgressTracker} {now : ℚ}
    {r : RenderOutput} (hr : print_progress p now = some r) (h : p.total = 0) :
    r.percentage = 100 := by
  unfold print_progress at hr
  rw [h] at hr
  norm_num at hr
  split_ifs at hr
  all_goals
    first
    | exact Option.noConfusion hr
    | (rw [Option.some.injEq] at hr
       rw [← hr])

theorem step_total_zero {p : ProgressTracker} {op : PTOp} (h : p.total = 0)
    (ht : PTOp.time op ≠ p.start_time) :
    p.step op ≠ none ∧
    ∀ q r, p.step op = some (q, r) → q.total = 0 ∧
      q.start_time = p.start_time ∧ ∀ x ∈ r.toList, x.percentage = 100 := by
  cases op with
  | update now success =>
      have htn : now ≠ p.start_time := by simpa [PTOp.time] using ht
      constructor
      · intro hnone
        simp only [ProgressTracker.step] at hnone
        split_ifs at hnone
        all_goals
          first
          | exact Option.noConfusion hnone
          | (split at hnone <;>
              first
              | exact Option.noConfusion hnone
              | (rename_i hpp
                 exact absurd hpp (print_progress_total_zero_ne_none (by simp [h])
                   (Or.inl (by simpa using sub_ne_zero.mpr htn)))))
      · intro q r hqr
        simp only [ProgressTracker.step] at hqr
        split_ifs at hqr
        all_goals
          first
          | (split at hqr <;>
              first
              | exact Option.noConfusion hqr
              | (rename_i r0 hpp
                 rw [Option.some.injEq, Prod.mk.injEq] at hqr
                 refine ⟨by rw [← hqr.1]; simp [h], by rw [← hqr.1], ?_⟩
                 intro x hx
                 rw [← hqr.2] at hx
                 simp only [Option.toList] at hx
                 rw [List.mem_singleton] at hx
                 rw [hx]
                 exact print_progress_percentage hpp (by simp [h])))
          | (rw [Option.some.injEq, Prod.mk.injEq] at hqr
             refine ⟨by rw [← hqr.1]; simp [h], by rw [← hqr.1], ?_⟩
             intro x hx
             rw [← hqr.2] at hx
             simp [Option.toList] at hx)
  | complete now =>
      constructor
      · intro hnone
        simp only [ProgressTracker.step] at hnone
        split at hnone
        · exact Option.noConfusion hnone
        · rename_i hpp
          exact absurd hpp (print_progress_total_zero_ne_none (by simp [h])
            (Or.inr (by simp [h])))
      · intro q r hqr
        simp only [ProgressTracker.step] at hqr
        split at hqr
        · rename_i r0 hpp
          rw [Option.some.injEq, Prod.mk.injEq] at hqr
          refine ⟨by rw [← hqr.1]; simp [h], by rw [← hqr.1], ?_⟩
          intro x hx
          rw [← hqr.2] at hx
          simp only [Option.toList] at hx
          rw [List.mem_singleton] at hx
          rw [hx]
          exact print_progress_percentage hpp (by simp [h])
        · exact Option.noConfusion hqr

theorem run_total_zero (ops : List PTOp) :
    ∀ p : ProgressTracker, p.total = 0 →
      (∀ op ∈ ops, PTOp.time op ≠ p.start_time) →
      ∃ st rs, p.run ops = some (st, rs) ∧ st.total = 0 ∧
        st.start_time = p.start_time ∧ ∀ r ∈ rs, r.percentage = 100 := by
  induction ops with
  | nil => exact fun p h _ => ⟨p, [], rfl, h, rfl, by simp⟩
  | cons op ops ih =>
      intro p h hop
      have hs := step_total_zero h (hop op (List.mem_cons_self op ops))
      rcases hstep : p.step op with _ | ⟨q, r⟩
      · exact absurd hstep hs.1
      · obtain ⟨hq0, hqs, hr100⟩ := hs.2 q r hstep
        obtain ⟨st, rs, hrun, hst0, hsts, hrs100⟩ := ih q hq0
          (fun o ho => by rw [hqs]; exact hop o (List.mem_cons_of_mem op ho))
        refine ⟨st, r.toList ++ rs, ?_, hst0, hsts.trans hqs, ?_⟩
        · simp only [ProgressTracker.run, hstep, hrun]
        · intro x hx
          rcases List.mem_append.mp hx with hx | hx
          · exact hr100 x hx
          · exact hrs100 x hx

/-- C7 (counterexample): the claim says no division by zero happens for any
sequence of calls, but `items_per_second = self.current / elapsed` is not
guarded against `elapsed = 0`: a tracker created with `total = 0` at time 5
whose first `update()` runs at that same time 5 renders (since
`now - last_update = 5 - 0 > 1`) with `current = 1 > 0` and
`elapsed = 5 - 5 = 0`, raising `ZeroDivisionError`. -/
theorem C7_counterexample :
    (ProgressTracker.init 0 5).run [PTOp.update 5 true] = none := by
  norm_num [ProgressTracker.init, ProgressTracker.run, ProgressTracker.step,
    print_progress]

/-- C7 (amended): a `ProgressTracker` created with `total = 0` reports a
percentage of 100 in its initial render and in every later render, and never
divides by zero, for every sequence of `update`/`complete` calls in which no
render happens at exactly the creation time (`elapsed ≠ 0`); when an
`update` runs at exactly the start time the unguarded division
`current / elapsed` does divide by zero. -/
theorem C7_total_zero (start : ℚ) (ops : List PTOp)
    (htime : ∀ op ∈ ops, PTOp.time op ≠ start) :
    print_progress (ProgressTracker.init 0 start) start
        = some { percentage := 100, eta := none, filled_length := 30 } ∧
    ∃ st rs, (ProgressTracker.init 0 start).run ops = some (st, rs) ∧
      ∀ r ∈ rs, r.percentage = 100 := by
  constructor
  · rfl
  · obtain ⟨st, rs, hrun, _, _, h100⟩ :=
      run_total_zero ops (ProgressTracker.init 0 start) rfl htime
    exact ⟨st, rs, hrun, h100⟩

/-- Witness for C7: with `total = 0`, creation at time 0 and one update at
time 5, the run performs no division by zero. -/
theorem C7_witness :
    print_progress (ProgressTracker.init 0 0) 0
        = some { percentage := 100, eta := none, filled_length := 30 } ∧
    ((ProgressTracker.init 0 0).run [PTOp.update 5 true]).isSome = true := by
  have h := C7_total_zero 0 [PTOp.update 5 true] (by
    intro op hop
    rw [List.mem_singleton] at hop
    rw [hop]
    norm_num [PTOp.time])
  refine ⟨h.1, ?_⟩
  obtain ⟨st, rs, hrun, _⟩ := h.2
  rw [hrun]
  rfl

/-- Helper: `run` over a concatenation is the composition of the runs. -/
theorem run_append (l1 l2 : List PTOp) : ∀ p : ProgressTracker,
    p.run (l1 ++ l2) = match p.run l1 with
      | none => none
      | some (q, rs) => match q.run l2 with
        | none => none
        | some (st, rs2) => some (st, rs ++ rs2) := by
  induction l1 with
  | nil =>
      intro p
      simp only [List.nil_append, ProgressTracker.run]
      cases hrun : p.run l2 with
      | none => rfl
      | some pr =>
          obtain ⟨st, rs2⟩ := pr
          simp
  | cons op l1 ih =>
      intro p
      simp only [List.cons_append, ProgressTracker.run]
      cases hstep : p.step op with
      | none => rfl
      | some pr =>
          obtain ⟨q, r⟩ := pr
          cases hrun1 : q.run l1 with
          | none => simp [ih q, hrun1]
          | some pr1 =>
              obtain ⟨q1, rs1⟩ := pr1
              cases hrun2 : q1.run l2 with
              | none => simp [ih q, hrun1, hrun2]
              | some pr2 =>
                  obtain ⟨st, rs2⟩ := pr2
                  simp [ih q, hrun1, hrun2, List.append_assoc]

/-- Helper: one `update` call increments `current` by one, increments exactly
one of the two outcome counters, and never touches `total`. -/
theorem step_update_state {p q : ProgressTracker} {r : Option RenderOutput}
    {now : ℚ} {success : Bool}
    (h : p.step (PTOp.update now success) = some (q, r)) :
    q.total = p.total ∧ q.current = p.current + 1 ∧
    q.success_count + q.error_count = p.success_count + p.error_count + 1 ∧
    p.success_count ≤ q.success_count ∧ p.error_count ≤ q.error_count := by
  simp only [ProgressTracker.step] at h
  split_ifs at h
  all_goals
    first
    | (split at h <;>
        first
        | exact Option.noConfusion h
        | (rw [Option.some.injEq, Prod.mk.injEq] at h
           obtain ⟨hq, -⟩ := h
           subst hq
           simp <;> omega))
    | (rw [Option.some.injEq, Prod.mk.injEq] at h
       obtain ⟨hq, -⟩ := h
       subst hq
       simp <;> omega)

/-- Helper: an update-only run of length `n` adds `n` to `current` and `n` to
the combined counters, and each counter is monotone. -/
theorem run_updates (ops : List PTOp) : ∀ p q : ProgressTracker,
    ∀ rs : List RenderOutput, (∀ op ∈ ops, PTOp.isUpdate op = true) →
    p.run ops = some (q, rs) →
    q.total = p.total ∧ q.current = p.current + ops.length ∧
    q.success_count + q.error_count
        = p.success_count + p.error_count + ops.length ∧
    p.success_count ≤ q.success_count ∧ p.error_count ≤ q.error_count := by
  induction ops with
  | nil =>
      intro p q rs _ h
      simp only [ProgressTracker.run] at h
      rw [Option.some.injEq, Prod.mk.injEq] at h
      obtain ⟨hq, -⟩ := h
      subst hq
      simp
  | cons op ops ih =>
      intro p q rs hupd hrun
      cases op with
      | complete now =>
          exact absurd (hupd _ (List.mem_cons_self _ _)) (by simp [PTOp.isUpdate])
      | update now success =>
          simp only [ProgressTracker.run] at hrun
          split at hrun
          · exact Option.noConfusion hrun
          · rename_i p1 r hstep
            split at hrun
            · exact Option.noConfusion hrun
            · rename_i p2 rs2 hrun2
              rw [Option.some.injEq, Prod.mk.injEq] at hrun
              obtain ⟨hq, -⟩ := hrun
              subst hq
              have h1 := step_update_state hstep
              have h2 := ih p1 p2 rs2
                (fun o ho => hupd o (List.mem_cons_of_mem _ ho)) hrun2
              simp only [List.length_cons]
              refine ⟨by omega, by omega, by omega, by omega, by omega⟩

/-- C8 (counterexample): `complete()` sets `current := total` without touching
the outcome counters, so `completed = success + failure` fails: on a tracker
with `total = 1`, a single `complete()` call leaves `current = 1` but
`success_count + error_count = 0`. -/
theorem C8_counterexample :
    ((ProgressTracker.init 1 0).runState [PTOp.complete 10]).map
        (fun st => (st.current, st.success_count + st.error_count))
      = some (1, 0 + 0) ∧ (1 : ℕ) ≠ 0 + 0 := by
  constructor
  · norm_num [ProgressTracker.init, ProgressTracker.runState, ProgressTracker.run,
      ProgressTracker.step, print_progress]
  · norm_num

/-- C8 (amended): the claimed invariant holds for the `update` calls only:
for every run consisting solely of `update(success)` calls, numbering at most
`total`, after every call (i.e. after every prefix `pre` of the run) the state
satisfies `completed = success-count + failure-count ≤ total`, and `completed`,
`success-count` and `failure-count` never decrease over the rest of the run.
`complete()` breaks the equation (it forces `completed = total` without
touching the counters), and `update` calls beyond `total` break the bound. -/
theorem C8_update_invariants (total : ℕ) (start : ℚ) (pre suf : List PTOp)
    (hupd : ∀ op ∈ pre ++ suf, PTOp.isUpdate op = true)
    (hlen : (pre ++ suf).length ≤ total)
    (st st2 : ProgressTracker)
    (hst : (ProgressTracker.init total start).runState pre = some st)
    (hst2 : (ProgressTracker.init total start).runState (pre ++ suf) = some st2) :
    st.current = st.success_count + st.error_count ∧
    st.current ≤ total ∧
    st.current ≤ st2.current ∧ st.success_count ≤ st2.success_count ∧
    st.error_count ≤ st2.error_count := by
  unfold ProgressTracker.runState at hst hst2
  rcases hrunpre : (ProgressTracker.init total start).run pre with _ | ⟨q1, rs1⟩
  · rw [hrunpre] at hst
    exact absurd hst (by simp)
  · rw [hrunpre] at hst
    simp only [Option.map_some', Option.some.injEq] at hst
    subst hst
    rw [run_append pre suf _, hrunpre] at hst2
    rcases hrs : q1.run suf with _ | ⟨q2, rs2⟩
    · simp [hrs] at hst2
    · simp only [hrs] at hst2
      simp only [Option.map_some', Option.some.injEq] at hst2
      subst hst2
      have h1 := run_updates pre (ProgressTracker.init total start) q1 rs1
        (fun o ho => hupd o (List.mem_append_left _ ho)) hrunpre
      have h2 := run_updates suf q1 q2 rs2
        (fun o ho => hupd o (List.mem_append_right _ ho)) hrs
      have hl : pre.length + suf.length ≤ total := by
        simpa [List.length_append] using hlen
      have hinit : (ProgressTracker.init total start).current = 0 ∧
          (ProgressTracker.init total start).success_count = 0 ∧
          (ProgressTracker.init total start).error_count = 0 := by
        simp [ProgressTracker.init]
      refine ⟨by omega, by omega, by omega, by omega, by omega⟩

/-- Witness for C8: with `total = 2`, after the first of two updates the state
is `current = 1 = 1 + 0 ≤ 2`. -/
theorem C8_witness :
    (ProgressTracker.mk 2 1 0 3 0 1).current
        = (ProgressTracker.mk 2 1 0 3 0 1).success_count
          + (ProgressTracker.mk 2 1 0 3 0 1).error_count ∧
    (ProgressTracker.mk 2 1 0 3 0 1).current ≤ 2 := by
  have h := C8_update_invariants 2 0 [PTOp.update 3 true] [PTOp.update 10 false]
    (by
      intro op hop
      simp only [List.cons_append, List.nil_append, List.mem_cons,
        List.not_mem_nil, or_false] at hop
      rcases hop with h | h <;> (rw [h]; rfl))
    (by norm_num)
    (ProgressTracker.mk 2 1 0 3 0 1) (ProgressTracker.mk 2 2 0 10 1 1)
    (by norm_num [ProgressTracker.init, ProgressTracker.runState,
      ProgressTracker.run, ProgressTracker.step, print_progress])
    (by norm_num [ProgressTracker.init, ProgressTracker.runState,
      ProgressTracker.run, ProgressTracker.step, print_progress])
  exact ⟨h.1, h.2.1⟩

/-- C4 (counterexample): on a flood-wait error with hint `h = 2` the governor
sleeps `e.seconds + 1 = 3` seconds before retrying, and 3 lies outside the
claimed jitter interval `[0.8 × 2, 1.2 × 2] = [1.6, 2.4]`. -/
theorem C4_counterexample :
    (rate_limited_request 0 [Attempt.floodWait 2, Attempt.success (0 : ℕ)]
        RateLimiter.default).map (fun x => x.1) = some [3] ∧
    ¬ ((8 / 10 : ℚ) * 2 ≤ 3 ∧ (3 : ℚ) ≤ (12 / 10) * 2) := by
  constructor
  · norm_num [rate_limited_request, RateLimiter.default, RateLimiter.record_error,
      RateLimiter.record_success]
  · intro hc
    have h2 := hc.2
    norm_num at h2

/-- C4 (amended): whenever a governed call fails with a rate-limit error
carrying a wait hint of `h` seconds, the governor records the error, sleeps
exactly `h + 1` seconds (there is no jitter on this path), and retries,
repeating until the call succeeds (the result is returned after
`record_success`) or fails with a non-rate-limit error (which is re-raised
after `record_error` with no hint): for any sequence of flood-wait hints `hs`
followed by a terminal outcome, the sleeps performed are exactly
`map (+1) hs`. -/
theorem C4_retry (α : Type) (hs : List ℚ) (now : ℚ) :
    ∀ rl : RateLimiter,
      (∀ v : α, ∃ rl2, rate_limited_request now
          (hs.map Attempt.floodWait ++ [Attempt.success v]) rl
        = some (hs.map (fun h => h + 1), Except.ok v, rl2)) ∧
      (∃ rl2, rate_limited_request now
          (hs.map Attempt.floodWait ++ [(Attempt.otherError : Attempt α)]) rl
        = some (hs.map (fun h => h + 1), Except.error (), rl2)) := by
  induction hs with
  | nil =>
      intro rl
      exact ⟨fun v => ⟨rl.record_success, rfl⟩, ⟨rl.record_error now none, rfl⟩⟩
  | cons h hs ih =>
      intro rl
      constructor
      · intro v
        obtain ⟨rl2, hrl2⟩ := (ih (rl.record_error now (some h))).1 v
        refine ⟨rl2, ?_⟩
        simp only [List.map_cons, List.cons_append, rate_limited_request,
          List.append_eq, hrl2]
      · obtain ⟨rl2, hrl2⟩ := (ih (rl.record_error now (some h))).2
        refine ⟨rl2, ?_⟩
        simp only [List.map_cons, List.cons_append, rate_limited_request,
          List.append_eq, hrl2]

/-- Helper: the result-processing fold of `scan_dead_bots` only ever inserts
into the seen/dead sets. -/
theorem scan_fold_mono (results : List (Except Unit (String × Bool))) :
    ∀ seen dead : Finset String,
      seen ⊆ (scan_dead_bots_fold seen dead results).1 ∧
      dead ⊆ (scan_dead_bots_fold seen dead results).2 := by
  induction results with
  | nil => exact fun s d => ⟨Finset.Subset.refl _, Finset.Subset.refl _⟩
  | cons r results ih =>
      intro s d
      cases r with
      | error e =>
          simp only [scan_dead_bots_fold, List.foldl_cons]
          exact ih s d
      | ok p =>
          obtain ⟨u, responded⟩ := p
          have h2 := ih (insert u s) (if responded then d else insert u d)
          simp only [scan_dead_bots_fold, List.foldl_cons] at h2 ⊢
          refine ⟨(Finset.subset_insert u s).trans h2.1,
            Finset.Subset.trans ?_ h2.2⟩
          cases responded
          · exact Finset.subset_insert u d
          · exact Finset.Subset.refl d

/-- C9 (counterexample): `scan_deleted_accounts` opens its record file with
mode `"w"` and writes only the current scan's findings, so a previously
persisted record `(1, 10)` is gone after a re-scan whose dialogs contain no
deleted users — the deleted-account records do not grow monotonically. -/
theorem C9_counterexample :
    ((1 : ℤ), (10 : ℤ)) ∈ [((1 : ℤ), (10 : ℤ))] ∧
    ((1 : ℤ), (10 : ℤ)) ∉ scan_deleted_accounts_persist [(1, 10)] [] := by
  constructor
  · exact List.mem_singleton.mpr rfl
  · intro hc
    simp [scan_deleted_accounts_persist, scan_deleted_accounts_records] at hc

/-- C9 (amended): re-running the dead-bot scan only adds entries — every
identifier in the persisted seen-bot and dead-bot sets before the scan is
still there after it, for every batch of probe results; the deleted-account
records, by contrast, are not monotone: the file is fully replaced by the
current scan's findings (`open(..., "w")` with no merge of prior records). -/
theorem C9_scan_monotone (seen dead : Finset String)
    (results : List (Except Unit (String × Bool))) :
    seen ⊆ (scan_dead_bots_fold seen dead results).1 ∧
    dead ⊆ (scan_dead_bots_fold seen dead results).2 ∧
    ∀ (prior : List (ℤ × ℤ)) (contacts : List TUser),
      scan_deleted_accounts_persist prior contacts
        = scan_deleted_accounts_records contacts :=
  ⟨(scan_fold_mono results seen dead).1, (scan_fold_mono results seen dead).2,
    fun _ _ => rfl⟩

/-- Witness for C9: a concrete scan over one probe result keeps the previously
seen bot `"a"` in the seen set. -/
theorem C9_witness :
    ({"a"} : Finset String) ⊆
      (scan_dead_bots_fold {"a"} ∅ [Except.ok ("b", false)]).1 :=
  (C9_scan_monotone {"a"} ∅ [Except.ok ("b", false)]).1

/-- C10 (confirmed): in `ping_bot`, the guard `if cached_status:` is falsy
both for a cache miss and for a cached `False` ("dead") value, so a cached
dead status is never served — the bot is re-probed (a fresh `/start` message
is sent); only a cached `True` ("alive") short-circuits the probe, returning
`(username, True)` without sending anything. -/
theorem C10_cached_dead_reprobed (cache : EntityCache Bool) (now : ℚ)
    (username : String) (messages : List String) :
    ((cache.get now ("bot_status_" ++ username)).1 = some false →
      (ping_bot cache now username messages).2.1 = true) ∧
    ((cache.get now ("bot_status_" ++ username)).1 = none →
      (ping_bot cache now username messages).2.1 = true) ∧
    ((cache.get now ("bot_status_" ++ username)).1 = some true →
      (ping_bot cache now username messages).2.1 = false ∧
      (ping_bot cache now username messages).1 = (username, true)) := by
  refine ⟨fun h => ?_, fun h => ?_, fun h => ?_⟩
  · simp [ping_bot, h, truthyOptBool]
  · simp [ping_bot, h, truthyOptBool]
  · simp [ping_bot, h, truthyOptBool]

/-- Witness for C10: a bot cached as dead at time 0 and looked up at time 10
is freshly probed. -/
theorem C10_witness :
    (ping_bot exCacheBotDead 10 "u" []).2.1 = true := by
  apply (C10_cached_dead_reprobed exCacheBotDead 10 "u" []).1
  have hkey : ("bot_status_" ++ "u" : String) = "bot_status_u" := by decide
  norm_num [exCacheBotDead, EntityCache.get, hkey]
